import Mathlib

set_option linter.unusedVariables false

namespace Ops

/-!
Shallow embedding of the wavesplatform/operations-service consumer pipeline.

Data model translated from src/consumer/model.rs.
-/

inductive OperationType where
  | InvokeScript
deriving DecidableEq

inductive TransactionType where
  | InvokeScript
  | EthereumTransaction
deriving DecidableEq

/-- Numeric discriminants from the `#[repr(u8)]` enum in model.rs:
`InvokeScript = 16`, `EthereumTransaction = 18`; used by `tx_type as u8`. -/
def TransactionType.code : TransactionType → Nat
  | .InvokeScript => 16
  | .EthereumTransaction => 18

structure Amount where
  amount : Int
  asset_id : String
deriving DecidableEq

def WAVES_ASSET_ID : String := "WAVES"

def Amount.new (amount : Int) (asset_id : Option String) : Amount :=
  { amount, asset_id := asset_id.getD WAVES_ASSET_ID }

inductive Arg where
  | Integer (v : Int)
  | Binary (v : String)
  | String (v : String)
  | Boolean (v : Bool)
  | CaseObj (v : String)
  | List (v : List Arg)

structure Call where
  function : String
  args : List Arg

/-- The normalized script-invocation transaction (model.rs `Transaction`).
model.rs declares `timestamp: u64` (milliseconds); the embedding keeps that raw
millisecond value (the repository's updates.rs alternatively renders it as an
ISO-8601 string via chrono; the spec notes the two divergent encodings). -/
structure Transaction where
  id : String
  op_type : OperationType
  tx_type : TransactionType
  height : Nat
  timestamp : Nat
  fee : Amount
  sender : String
  sender_public_key : String
  proofs : List String
  dapp : String
  payment : List Amount
  call : Call

/-! Pipeline events translated from src/consumer/updates.rs. -/

structure AppendBlock where
  block_id : String
  height : Nat
  timestamp : Option Nat
  is_microblock : Bool
  transactions : List Transaction

structure Rollback where
  block_id : String

inductive BlockchainUpdate where
  | Append (a : AppendBlock)
  | Rollback (r : Rollback)

/-- The block id carried by an update (projection used to state concrete runs). -/
def updateId : BlockchainUpdate → String
  | .Append a => a.block_id
  | .Rollback r => r.block_id

def isRollbackUpdate : BlockchainUpdate → Bool
  | .Rollback _ => true
  | .Append _ => false

/-- The timestamp field of an `Append`, `none` for rollbacks. -/
def updateTimestamp : BlockchainUpdate → Option Nat
  | .Append a => a.timestamp
  | .Rollback _ => none

/-! Batcher translated from src/consumer/batcher.rs.  `Instant` values are
modelled as `Nat` time points; `last_flush.elapsed()` becomes `now - last_flush`
with the current time point `now` supplied alongside each received event. -/

structure BatchingParams where
  max_updates : Option Nat
  max_delay : Option Nat

structure BatcherState where
  buffer : List BlockchainUpdate
  last_block_timestamp : Option Nat
  last_block_height : Option Nat
  last_flush : Nat

/-- Initial batcher state built by `batcher::start` (empty buffer, no cached
block height/timestamp, `last_flush = Instant::now()`). -/
def initialState (now : Nat) : BatcherState :=
  { buffer := [], last_block_timestamp := none, last_block_height := none, last_flush := now }

/-- Index of the `Append` matching `target` that the loop
`for (i, item) in self.buffer.iter().enumerate().rev()` finds: the scan runs
from the tail toward the head and stops at the first matching `Append`, i.e. at
the largest matching index.  Structured here as right-biased recursion, which
computes exactly that first-from-the-tail match. -/
def findLastAppendIdx (target : String) : List BlockchainUpdate → Option Nat
  | [] => none
  | u :: rest =>
    match findLastAppendIdx target rest with
    | some i => some (i + 1)
    | none =>
      match u with
      | .Append a => if a.block_id == target then some 0 else none
      | .Rollback _ => none

/-- `Batcher::push_update`.  `none` models the programmer-error panics of the
microblock timestamp-propagation branch (including the
`assert!(self.last_block_timestamp.is_some())`). -/
def push_update (st : BatcherState) (u : BlockchainUpdate) : Option BatcherState :=
  match u with
  | .Append a =>
    if a.is_microblock && a.timestamp.isNone then
      match st.last_block_height with
      | some last_height =>
        if last_height = a.height then
          match st.last_block_timestamp with
          | some _ =>
            some { st with buffer := st.buffer ++ [.Append { a with timestamp := st.last_block_timestamp }] }
          | none => none
        else none
      | none => none
    else
      some { st with
        last_block_height := some a.height,
        last_block_timestamp := a.timestamp,
        buffer := st.buffer ++ [.Append a] }
  | .Rollback rb =>
    match findLastAppendIdx rb.block_id st.buffer with
    | some i => some { st with buffer := st.buffer.take (i + 1) }
    | none =>
      some { st with
        last_block_height := none,
        last_block_timestamp := none,
        buffer := st.buffer ++ [.Rollback rb] }

/-- `Batcher::need_flush`, rule for rule in source order. -/
def need_flush (p : BatchingParams) (now : Nat) (st : BatcherState) : Bool :=
  if st.buffer.isEmpty then
    false
  else if (match st.buffer.getLast? with
           | some (.Rollback _) => true
           | _ => false) then
    false
  else if st.buffer.any isRollbackUpdate then
    true
  else if st.buffer.length > 1 &&
          (match st.buffer.getLast? with
           | some (.Append last_append) => last_append.is_microblock
           | _ => false) then
    true
  else if (match p.max_updates with
           | some max_updates => decide (st.buffer.length ≥ max_updates)
           | none => false) then
    true
  else if (match p.max_delay with
           | some max_delay => decide (now - st.last_flush ≥ max_delay)
           | none => false) then
    true
  else if p.max_updates.isNone && p.max_delay.isNone then
    true
  else
    false

/-- `Batcher::flush`: detach a microblock tail as the delayed update, drain the
rest as the emitted batch, re-buffer the delayed update, reset `last_flush`.
Returns the new state and the emitted batch. -/
def flush (now : Nat) (st : BatcherState) : BatcherState × List BlockchainUpdate :=
  let delayed : Option BlockchainUpdate :=
    match st.buffer.getLast? with
    | some (.Append a) => if a.is_microblock then some (.Append a) else none
    | _ => none
  let drained : List BlockchainUpdate :=
    match delayed with
    | some _ => st.buffer.dropLast
    | none => st.buffer
  let buffer : List BlockchainUpdate :=
    match delayed with
    | some u => [u]
    | none => []
  ({ st with buffer := buffer, last_flush := now }, drained)

/-- One iteration of `Batcher::run`: ingest one event, then flush when
`need_flush` holds.  Returns the new state and, when a flush fired, the record
`(buffer length at flush time, emitted batch)` matching the
`let count = self.buffer.len()` instrumentation of the run loop. -/
def stepBatcher (p : BatchingParams) (st : BatcherState) (ev : BlockchainUpdate) (now : Nat) :
    Option (BatcherState × Option (Nat × List BlockchainUpdate)) :=
  match push_update st ev with
  | none => none
  | some st1 =>
    if need_flush p now st1 then
      let fl := flush now st1
      some (fl.1, some (st1.buffer.length, fl.2))
    else
      some (st1, none)

/-- `Batcher::run` over a finite event sequence; each event comes with the time
point at which it is processed.  Returns the final state and the list of flush
records, oldest first.  `none` models a batcher panic. -/
def runBatcher (p : BatchingParams) (st : BatcherState) :
    List (BlockchainUpdate × Nat) → Option (BatcherState × List (Nat × List BlockchainUpdate))
  | [] => some (st, [])
  | (ev, now) :: rest =>
    match stepBatcher p st ev now with
    | none => none
    | some (st1, rec?) =>
      match runBatcher p st1 rest with
      | none => none
      | some (stf, recs) =>
        some (stf, (match rec? with | some r => [r] | none => []) ++ recs)

def isMicroblockAppend : BlockchainUpdate → Bool
  | .Append a => a.is_microblock
  | .Rollback _ => false

/-- The flush rule table exactly as the spec words it (rules 1-7 evaluated in
order with short-circuiting), written independently of `need_flush` for
comparison. -/
def needFlushSpec (p : BatchingParams) (now : Nat) (st : BatcherState) : Bool :=
  if st.buffer.isEmpty then false
  else if st.buffer.getLast?.any isRollbackUpdate then false
  else if st.buffer.any isRollbackUpdate then true
  else if st.buffer.getLast?.any isMicroblockAppend && decide (st.buffer.length > 1) then true
  else if p.max_updates.any (fun max_updates => decide (st.buffer.length ≥ max_updates)) then true
  else if p.max_delay.any (fun max_delay => decide (now - st.last_flush ≥ max_delay)) then true
  else if p.max_updates.isNone && p.max_delay.isNone then true
  else false

/-- Claim C1: the batcher's flush predicate `need_flush` returns exactly the
result of the spec's rule table applied in order with short-circuiting:
false on an empty buffer; false when the last buffer element is a Rollback;
true when any buffer element is a Rollback; true when the last element is a
microblock Append and the buffer length exceeds 1; true when `max_updates` is
configured and the buffer length reaches it; true when `max_delay` is
configured and the elapsed time since `last_flush` reaches it; true when
neither bound is configured; false otherwise. -/
theorem need_flush_matches_rule_table (p : BatchingParams) (now : Nat) (st : BatcherState) :
    need_flush p now st = needFlushSpec p now st := by
  unfold need_flush needFlushSpec
  cases hl : st.buffer.getLast? with
  | none =>
    have hb : st.buffer = [] := List.getLast?_eq_none_iff.mp hl
    simp [hb]
  | some u =>
    cases u <;>
      cases hu : p.max_updates <;> cases hd : p.max_delay <;>
        simp [hl, isRollbackUpdate, isMicroblockAppend, Bool.and_comm]

theorem findLastAppendIdx_cons (target : String) (u : BlockchainUpdate) (rest : List BlockchainUpdate) :
    findLastAppendIdx target (u :: rest) =
      (match findLastAppendIdx target rest with
       | some i => some (i + 1)
       | none =>
         match u with
         | .Append a => if a.block_id == target then some 0 else none
         | .Rollback _ => none) := rfl

/-- There is an `Append` with the given block id at position `i` of the buffer. -/
def appendMatchesAt (buf : List BlockchainUpdate) (target : String) (i : Nat) : Prop :=
  ∃ a, buf[i]? = some (.Append a) ∧ a.block_id = target

theorem findLastAppendIdx_some_matches (target : String) (buf : List BlockchainUpdate) (i : Nat)
    (h : findLastAppendIdx target buf = some i) : appendMatchesAt buf target i := by
  induction buf generalizing i with
  | nil => simp [findLastAppendIdx] at h
  | cons u rest ih =>
    rw [findLastAppendIdx_cons] at h
    cases hr : findLastAppendIdx target rest with
    | some j =>
      rw [hr] at h
      cases h
      obtain ⟨a, ha, hid⟩ := ih j hr
      exact ⟨a, by simpa using ha, hid⟩
    | none =>
      rw [hr] at h
      cases u with
      | Append a =>
        by_cases hid : a.block_id == target
        · simp only [hid, if_true] at h
          cases h
          exact ⟨a, by simp, by simpa using hid⟩
        · simp [hid] at h
      | Rollback r => simp at h

theorem findLastAppendIdx_none_no_match (target : String) (buf : List BlockchainUpdate)
    (h : findLastAppendIdx target buf = none) : ∀ j, ¬ appendMatchesAt buf target j := by
  induction buf with
  | nil => intro j ⟨a, ha, _⟩; simp at ha
  | cons u rest ih =>
    rw [findLastAppendIdx_cons] at h
    cases hr : findLastAppendIdx target rest with
    | some j => rw [hr] at h; cases h
    | none =>
      rw [hr] at h
      intro j ⟨a, ha, hid⟩
      cases j with
      | zero =>
        simp only [List.getElem?_cons_zero, Option.some.injEq] at ha
        subst ha
        simp [hid] at h
      | succ k =>
        exact ih hr k ⟨a, by simpa using ha, hid⟩

theorem findLastAppendIdx_some_largest (target : String) (buf : List BlockchainUpdate) (i : Nat)
    (h : findLastAppendIdx target buf = some i) :
    ∀ j, appendMatchesAt buf target j → j ≤ i := by
  induction buf generalizing i with
  | nil => intro j ⟨a, ha, _⟩; simp at ha
  | cons u rest ih =>
    rw [findLastAppendIdx_cons] at h
    cases hr : findLastAppendIdx target rest with
    | some k =>
      rw [hr] at h
      cases h
      intro j hj
      cases j with
      | zero => exact Nat.zero_le _
      | succ m =>
        obtain ⟨a, ha, hid⟩ := hj
        exact Nat.succ_le_succ (ih k hr m ⟨a, by simpa using ha, hid⟩)
    | none =>
      rw [hr] at h
      intro j hj
      cases j with
      | zero =>
        cases u with
        | Append a =>
          by_cases hid : a.block_id == target
          · simp only [hid, if_true] at h; cases h; exact Nat.le_refl 0
          · simp [hid] at h
        | Rollback r => simp at h
      | succ m =>
        obtain ⟨a, ha, hid⟩ := hj
        exact absurd ⟨a, by simpa using ha, hid⟩ (findLastAppendIdx_none_no_match target rest hr m)

/-- Claim C2: ingesting `Rollback(target)` into any buffer state: when some
buffered `Append` has the target block id, the buffer is truncated right after
the largest such index (every later element and the rollback itself are
discarded) and `last_block_height`/`last_block_timestamp` are unchanged; when
no buffered `Append` matches, both cached values are cleared to `none` and the
rollback is pushed onto the tail of the buffer. -/
theorem push_update_rollback_folds (st : BatcherState) (target : String) (st2 : BatcherState)
    (h : push_update st (.Rollback { block_id := target }) = some st2) :
    ((∃ j, appendMatchesAt st.buffer target j) →
      ∃ i, appendMatchesAt st.buffer target i ∧
        (∀ j, appendMatchesAt st.buffer target j → j ≤ i) ∧
        st2.buffer = st.buffer.take (i + 1) ∧
        st2.last_block_height = st.last_block_height ∧
        st2.last_block_timestamp = st.last_block_timestamp) ∧
    ((¬ ∃ j, appendMatchesAt st.buffer target j) →
      st2.buffer = st.buffer ++ [.Rollback { block_id := target }] ∧
      st2.last_block_height = none ∧
      st2.last_block_timestamp = none) := by
  simp only [push_update] at h
  cases hf : findLastAppendIdx target st.buffer with
  | some i =>
    rw [hf] at h
    cases h
    constructor
    · intro _
      exact ⟨i, findLastAppendIdx_some_matches target st.buffer i hf,
        findLastAppendIdx_some_largest target st.buffer i hf, rfl, rfl, rfl⟩
    · intro hno
      exact absurd ⟨i, findLastAppendIdx_some_matches target st.buffer i hf⟩ hno
  | none =>
    rw [hf] at h
    cases h
    constructor
    · intro ⟨j, hj⟩
      exact absurd hj (findLastAppendIdx_none_no_match target st.buffer hf j)
    · intro _
      exact ⟨rfl, rfl, rfl⟩

def demoAppendB1 : AppendBlock :=
  { block_id := "b1", height := 1, timestamp := some 100, is_microblock := false, transactions := [] }

def demoAppendM1 : AppendBlock :=
  { block_id := "m1", height := 1, timestamp := some 100, is_microblock := true, transactions := [] }

def demoRollbackSt : BatcherState :=
  { buffer := [.Append demoAppendB1, .Append demoAppendM1],
    last_block_timestamp := some 100, last_block_height := some 1, last_flush := 0 }

/-- Witness for claim C2 at a concrete input: buffer `[A(b1), A(m1)]` receiving
`Rollback(b1)` truncates to `[A(b1)]` with the cached height/timestamp kept. -/
theorem push_update_rollback_folds_witness :
    ((∃ j, appendMatchesAt demoRollbackSt.buffer "b1" j) →
      ∃ i, appendMatchesAt demoRollbackSt.buffer "b1" i ∧
        (∀ j, appendMatchesAt demoRollbackSt.buffer "b1" j → j ≤ i) ∧
        [BlockchainUpdate.Append demoAppendB1] = demoRollbackSt.buffer.take (i + 1) ∧
        (some 1 : Option Nat) = demoRollbackSt.last_block_height ∧
        (some 100 : Option Nat) = demoRollbackSt.last_block_timestamp) ∧
    ((¬ ∃ j, appendMatchesAt demoRollbackSt.buffer "b1" j) →
      [BlockchainUpdate.Append demoAppendB1] = demoRollbackSt.buffer ++ [.Rollback { block_id := "b1" }] ∧
      (some 1 : Option Nat) = none ∧
      (some 100 : Option Nat) = none) :=
  push_update_rollback_folds demoRollbackSt "b1"
    { buffer := [.Append demoAppendB1],
      last_block_timestamp := some 100, last_block_height := some 1, last_flush := 0 }
    rfl

theorem runBatcher_nil (p : BatchingParams) (st : BatcherState) :
    runBatcher p st [] = some (st, []) := rfl

theorem runBatcher_cons (p : BatchingParams) (st : BatcherState) (ev : BlockchainUpdate)
    (now : Nat) (rest : List (BlockchainUpdate × Nat)) :
    runBatcher p st ((ev, now) :: rest) =
      (match stepBatcher p st ev now with
       | none => none
       | some (st1, rec?) =>
         match runBatcher p st1 rest with
         | none => none
         | some (stf, recs) =>
           some (stf, (match rec? with | some r => [r] | none => []) ++ recs)) := rfl

/-- Claim C4, counterexample: a non-microblock `Append` arriving with a missing
timestamp is buffered as-is (the timestamp-propagation branch only guards
microblocks), so an `Append` without a present timestamp can be placed in the
buffer — the claim's universal statement fails at this input. -/
theorem append_without_timestamp_buffered :
    (push_update (initialState 0)
        (.Append { block_id := "b", height := 1, timestamp := none, is_microblock := false,
                   transactions := [] })).map
      (fun st => st.buffer.map updateTimestamp) = some [none] := rfl

theorem push_update_timestamped (st : BatcherState) (ev : BlockchainUpdate) (st1 : BatcherState)
    (hst : ∀ a, BlockchainUpdate.Append a ∈ st.buffer → a.timestamp.isSome)
    (hev : ∀ a, ev = BlockchainUpdate.Append a → a.is_microblock = false → a.timestamp.isSome)
    (h : push_update st ev = some st1) :
    ∀ a, BlockchainUpdate.Append a ∈ st1.buffer → a.timestamp.isSome := by
  cases ev with
  | Append a =>
    simp only [push_update] at h
    by_cases hc : (a.is_microblock && a.timestamp.isNone) = true
    · rw [if_pos hc] at h
      cases hh : st.last_block_height with
      | none => rw [hh] at h; cases h
      | some last_height =>
        rw [hh] at h
        dsimp only at h
        by_cases heq : last_height = a.height
        · rw [if_pos heq] at h
          cases hts : st.last_block_timestamp with
          | none => rw [hts] at h; cases h
          | some t =>
            rw [hts] at h
            cases h
            intro b hb
            rcases List.mem_append.mp hb with hb | hb
            · exact hst b hb
            · simp only [List.mem_singleton, BlockchainUpdate.Append.injEq] at hb
              subst hb
              simp [hts]
        · rw [if_neg heq] at h; cases h
    · rw [if_neg hc] at h
      cases h
      intro b hb
      rcases List.mem_append.mp hb with hb | hb
      · exact hst b hb
      · simp only [List.mem_singleton, BlockchainUpdate.Append.injEq] at hb
        subst hb
        rcases Bool.and_eq_false_iff.mp (Bool.not_eq_true _ |>.mp hc) with hmb | hts
        · exact hev b rfl hmb
        · simpa [Option.isSome] using hts
  | Rollback rb =>
    simp only [push_update] at h
    cases hf : findLastAppendIdx rb.block_id st.buffer with
    | some i =>
      rw [hf] at h
      cases h
      intro b hb
      exact hst b (List.mem_of_mem_take hb)
    | none =>
      rw [hf] at h
      cases h
      intro b hb
      rcases List.mem_append.mp hb with hb | hb
      · exact hst b hb
      · simp at hb

theorem flush_mem_subset (now : Nat) (st : BatcherState) :
    (∀ u ∈ (flush now st).1.buffer, u ∈ st.buffer) ∧
    (∀ u ∈ (flush now st).2, u ∈ st.buffer) := by
  unfold flush
  cases hl : st.buffer.getLast? with
  | none =>
    simp only [hl]
    exact ⟨fun u hu => by simp at hu, fun u hu => hu⟩
  | some x =>
    cases x with
    | Append a =>
      by_cases hmb : a.is_microblock
      · simp only [hl, hmb, if_true]
        constructor
        · intro u hu
          simp only [List.mem_singleton] at hu
          subst hu
          exact List.mem_of_mem_getLast? hl
        · intro u hu
          exact List.mem_of_mem_dropLast hu
      · simp only [hl, hmb, if_false]
        exact ⟨fun u hu => by simp at hu, fun u hu => hu⟩
    | Rollback r =>
      simp only [hl]
      exact ⟨fun u hu => by simp at hu, fun u hu => hu⟩

theorem runBatcher_timestamped_aux (p : BatchingParams) (events : List (BlockchainUpdate × Nat))
    (st : BatcherState)
    (hst : ∀ a, BlockchainUpdate.Append a ∈ st.buffer → a.timestamp.isSome)
    (hev : ∀ e ∈ events, ∀ a, e.1 = BlockchainUpdate.Append a →
            a.is_microblock = false → a.timestamp.isSome)
    (res : BatcherState × List (Nat × List BlockchainUpdate))
    (h : runBatcher p st events = some res) :
    (∀ a, BlockchainUpdate.Append a ∈ res.1.buffer → a.timestamp.isSome) ∧
    (∀ r ∈ res.2, ∀ a, BlockchainUpdate.Append a ∈ r.2 → a.timestamp.isSome) := by
  induction events generalizing st res with
  | nil =>
    rw [runBatcher_nil] at h
    cases h
    exact ⟨hst, fun r hr => by simp at hr⟩
  | cons e rest ih =>
    obtain ⟨ev, now⟩ := e
    rw [runBatcher_cons] at h
    cases hs : stepBatcher p st ev now with
    | none => rw [hs] at h; cases h
    | some pr =>
      obtain ⟨st1, rec?⟩ := pr
      rw [hs] at h
      dsimp only at h
      cases hrun : runBatcher p st1 rest with
      | none => rw [hrun] at h; cases h
      | some pr2 =>
        obtain ⟨stf, recs⟩ := pr2
        rw [hrun] at h
        dsimp only at h
        cases h
        have hevHead : ∀ a, ev = BlockchainUpdate.Append a →
            a.is_microblock = false → a.timestamp.isSome :=
          fun a ha hmb => hev (ev, now) (by simp) a ha hmb
        have hevRest : ∀ e ∈ rest, ∀ a, e.1 = BlockchainUpdate.Append a →
            a.is_microblock = false → a.timestamp.isSome :=
          fun e he a ha hmb => hev e (by simp [he]) a ha hmb
        -- analyze the step
        simp only [stepBatcher] at hs
        cases hp : push_update st ev with
        | none => rw [hp] at hs; cases hs
        | some stp =>
          rw [hp] at hs
          dsimp only at hs
          have hstp : ∀ a, BlockchainUpdate.Append a ∈ stp.buffer → a.timestamp.isSome :=
            push_update_timestamped st ev stp hst hevHead hp
          by_cases hnf : need_flush p now stp = true
          · rw [if_pos hnf] at hs
            cases hs
            have hsub := flush_mem_subset now stp
            have hrec := ih (flush now stp).1
              (fun a ha => hstp a (hsub.1 _ ha)) hevRest (stf, recs) hrun
            refine ⟨hrec.1, ?_⟩
            intro r hr
            simp only [List.cons_append, List.nil_append, List.mem_cons] at hr
            rcases hr with hr | hr
            · subst hr
              intro a ha
              exact hstp a (hsub.2 _ ha)
            · exact hrec.2 r hr
          · rw [if_neg hnf] at hs
            cases hs
            have hrec := ih _ hstp hevRest (stf, recs) hrun
            exact ⟨hrec.1, fun r hr => hrec.2 r (by simpa using hr)⟩

theorem push_update_micro_timestamped (st : BatcherState) (ev : BlockchainUpdate)
    (st1 : BatcherState)
    (hst : ∀ a, BlockchainUpdate.Append a ∈ st.buffer → a.is_microblock = true →
            a.timestamp.isSome)
    (h : push_update st ev = some st1) :
    ∀ a, BlockchainUpdate.Append a ∈ st1.buffer → a.is_microblock = true →
      a.timestamp.isSome := by
  cases ev with
  | Append a =>
    simp only [push_update] at h
    by_cases hc : (a.is_microblock && a.timestamp.isNone) = true
    · rw [if_pos hc] at h
      cases hh : st.last_block_height with
      | none => rw [hh] at h; cases h
      | some last_height =>
        rw [hh] at h
        dsimp only at h
        by_cases heq : last_height = a.height
        · rw [if_pos heq] at h
          cases hts : st.last_block_timestamp with
          | none => rw [hts] at h; cases h
          | some t =>
            rw [hts] at h
            cases h
            intro b hb hbm
            rcases List.mem_append.mp hb with hb | hb
            · exact hst b hb hbm
            · simp only [List.mem_singleton, BlockchainUpdate.Append.injEq] at hb
              subst hb
              simp [hts]
        · rw [if_neg heq] at h; cases h
    · rw [if_neg hc] at h
      cases h
      intro b hb hbm
      rcases List.mem_append.mp hb with hb | hb
      · exact hst b hb hbm
      · simp only [List.mem_singleton, BlockchainUpdate.Append.injEq] at hb
        subst hb
        rcases Bool.and_eq_false_iff.mp (Bool.not_eq_true _ |>.mp hc) with hmb | hts
        · rw [hbm] at hmb; cases hmb
        · simpa [Option.isSome] using hts
  | Rollback rb =>
    simp only [push_update] at h
    cases hf : findLastAppendIdx rb.block_id st.buffer with
    | some i =>
      rw [hf] at h
      cases h
      intro b hb hbm
      exact hst b (List.mem_of_mem_take hb) hbm
    | none =>
      rw [hf] at h
      cases h
      intro b hb hbm
      rcases List.mem_append.mp hb with hb | hb
      · exact hst b hb hbm
      · simp at hb

theorem runBatcher_micro_timestamped_aux (p : BatchingParams)
    (events : List (BlockchainUpdate × Nat)) (st : BatcherState)
    (hst : ∀ a, BlockchainUpdate.Append a ∈ st.buffer → a.is_microblock = true →
            a.timestamp.isSome)
    (res : BatcherState × List (Nat × List BlockchainUpdate))
    (h : runBatcher p st events = some res) :
    (∀ a, BlockchainUpdate.Append a ∈ res.1.buffer → a.is_microblock = true →
      a.timestamp.isSome) ∧
    (∀ r ∈ res.2, ∀ a, BlockchainUpdate.Append a ∈ r.2 → a.is_microblock = true →
      a.timestamp.isSome) := by
  induction events generalizing st res with
  | nil =>
    rw [runBatcher_nil] at h
    cases h
    exact ⟨hst, fun r hr => by simp at hr⟩
  | cons e rest ih =>
    obtain ⟨ev, now⟩ := e
    rw [runBatcher_cons] at h
    cases hs : stepBatcher p st ev now with
    | none => rw [hs] at h; cases h
    | some pr =>
      obtain ⟨st1, rec?⟩ := pr
      rw [hs] at h
      dsimp only at h
      cases hrun : runBatcher p st1 rest with
      | none => rw [hrun] at h; cases h
      | some pr2 =>
        obtain ⟨stf, recs⟩ := pr2
        rw [hrun] at h
        dsimp only at h
        cases h
        simp only [stepBatcher] at hs
        cases hp : push_update st ev with
        | none => rw [hp] at hs; cases hs
        | some stp =>
          rw [hp] at hs
          dsimp only at hs
          have hstp : ∀ a, BlockchainUpdate.Append a ∈ stp.buffer →
              a.is_microblock = true → a.timestamp.isSome :=
            push_update_micro_timestamped st ev stp hst hp
          by_cases hnf : need_flush p now stp = true
          · rw [if_pos hnf] at hs
            cases hs
            have hsub := flush_mem_subset now stp
            have hrec := ih (flush now stp).1
              (fun a ha hm => hstp a (hsub.1 _ ha) hm) (stf, recs) hrun
            refine ⟨hrec.1, ?_⟩
            intro r hr
            simp only [List.cons_append, List.nil_append, List.mem_cons] at hr
            rcases hr with hr | hr
            · subst hr
              intro a ha hm
              exact hstp a (hsub.2 _ ha) hm
            · exact hrec.2 r hr
          · rw [if_neg hnf] at hs
            cases hs
            have hrec := ih _ hstp (stf, recs) hrun
            exact ⟨hrec.1, fun r hr => hrec.2 r (by simpa using hr)⟩

/-- Claim C4 (amended): across every ingested event sequence, every microblock
`Append` placed in the batcher's buffer — and every microblock `Append` of
every emitted batch — has a present timestamp unconditionally: a microblock
arriving without one either inherits `last_block_timestamp` or makes the
batcher panic, so the writer's timestamp assertion is unreachable for
microblocks.  Moreover, provided every ingested non-microblock `Append`
carries a present timestamp, every `Append` placed in the buffer and every
`Append` emitted to the writer has a present timestamp.  (That proviso on
full blocks is forced: the code buffers a full block with a missing
timestamp unchanged.) -/
theorem batcher_keeps_appends_timestamped (p : BatchingParams)
    (events : List (BlockchainUpdate × Nat)) (now0 : Nat)
    (res : BatcherState × List (Nat × List BlockchainUpdate))
    (h : runBatcher p (initialState now0) events = some res) :
    ((∀ a, BlockchainUpdate.Append a ∈ res.1.buffer → a.is_microblock = true →
        a.timestamp.isSome) ∧
     (∀ r ∈ res.2, ∀ a, BlockchainUpdate.Append a ∈ r.2 → a.is_microblock = true →
        a.timestamp.isSome)) ∧
    ((∀ e ∈ events, ∀ a, e.1 = BlockchainUpdate.Append a →
        a.is_microblock = false → a.timestamp.isSome) →
      (∀ a, BlockchainUpdate.Append a ∈ res.1.buffer → a.timestamp.isSome) ∧
      (∀ r ∈ res.2, ∀ a, BlockchainUpdate.Append a ∈ r.2 → a.timestamp.isSome)) :=
  ⟨runBatcher_micro_timestamped_aux p events (initialState now0)
      (fun a ha => by simp [initialState] at ha) res h,
   fun hev =>
     runBatcher_timestamped_aux p events (initialState now0)
       (fun a ha => by simp [initialState] at ha) hev res h⟩

/-- Witness for the amended claim C4 at a concrete run: a full block followed
by a timestamp-less microblock at the same height; both the unconditional
microblock part and the discharged conditional part are instantiated. -/
theorem batcher_keeps_appends_timestamped_witness :
    (∀ a, BlockchainUpdate.Append a ∈
        [BlockchainUpdate.Append { block_id := "m1", height := 1, timestamp := some 100,
                                   is_microblock := true, transactions := [] }] →
      a.is_microblock = true → a.timestamp.isSome) ∧
    (∀ a, BlockchainUpdate.Append a ∈
        [BlockchainUpdate.Append { block_id := "m1", height := 1, timestamp := some 100,
                                   is_microblock := true, transactions := [] }] →
      a.timestamp.isSome) ∧
    (∀ r ∈ [((2 : Nat),
            [BlockchainUpdate.Append { block_id := "b1", height := 1, timestamp := some 100,
                                       is_microblock := false, transactions := [] }])],
      ∀ a, BlockchainUpdate.Append a ∈ r.2 → a.timestamp.isSome) :=
  ⟨(batcher_keeps_appends_timestamped { max_updates := some 3, max_delay := none }
      [(.Append { block_id := "b1", height := 1, timestamp := some 100,
                  is_microblock := false, transactions := [] }, 0),
       (.Append { block_id := "m1", height := 1, timestamp := none,
                  is_microblock := true, transactions := [] }, 0)] 0
      ({ buffer := [.Append { block_id := "m1", height := 1, timestamp := some 100,
                              is_microblock := true, transactions := [] }],
         last_block_timestamp := some 100, last_block_height := some 1, last_flush := 0 },
       [(2, [.Append { block_id := "b1", height := 1, timestamp := some 100,
                       is_microblock := false, transactions := [] }])])
      rfl).1.1,
   ((batcher_keeps_appends_timestamped { max_updates := some 3, max_delay := none }
      [(.Append { block_id := "b1", height := 1, timestamp := some 100,
                  is_microblock := false, transactions := [] }, 0),
       (.Append { block_id := "m1", height := 1, timestamp := none,
                  is_microblock := true, transactions := [] }, 0)] 0
      ({ buffer := [.Append { block_id := "m1", height := 1, timestamp := some 100,
                              is_microblock := true, transactions := [] }],
         last_block_timestamp := some 100, last_block_height := some 1, last_flush := 0 },
       [(2, [.Append { block_id := "b1", height := 1, timestamp := some 100,
                       is_microblock := false, transactions := [] }])])
      rfl).2 (by
        rintro e he a hea hmb
        simp only [List.mem_cons, List.not_mem_nil, or_false] at he
        rcases he with he | he <;> subst he <;> cases hea <;> simp at hmb ⊢)).1,
   ((batcher_keeps_appends_timestamped { max_updates := some 3, max_delay := none }
      [(.Append { block_id := "b1", height := 1, timestamp := some 100,
                  is_microblock := false, transactions := [] }, 0),
       (.Append { block_id := "m1", height := 1, timestamp := none,
                  is_microblock := true, transactions := [] }, 0)] 0
      ({ buffer := [.Append { block_id := "m1", height := 1, timestamp := some 100,
                              is_microblock := true, transactions := [] }],
         last_block_timestamp := some 100, last_block_height := some 1, last_flush := 0 },
       [(2, [.Append { block_id := "b1", height := 1, timestamp := some 100,
                       is_microblock := false, transactions := [] }])])
      rfl).2 (by
        rintro e he a hea hmb
        simp only [List.mem_cons, List.not_mem_nil, or_false] at he
        rcases he with he | he <;> subst he <;> cases hea <;> simp at hmb ⊢)).2⟩

/-- Claim C5, counterexample: from an empty buffer with `max_updates = 3` and
no `max_delay`, ingesting `A(block b1, h=1, ts=100)` then
`A(microblock m1, h=1, ts=none)` does NOT leave the flush pending: rule 4 of
the flush predicate (microblock tail over a buffer longer than 1) fires at the
microblock ingest itself, emitting the one-event batch `[A(b1)]` and keeping
the microblock (timestamp 100) buffered — the claim's "produces no flush"
for the first two events is false at this input. -/
theorem microblock_ingest_flushes_immediately :
    (runBatcher { max_updates := some 3, max_delay := none } (initialState 0)
        [(.Append { block_id := "b1", height := 1, timestamp := some 100,
                    is_microblock := false, transactions := [] }, 0),
         (.Append { block_id := "m1", height := 1, timestamp := none,
                    is_microblock := true, transactions := [] }, 0)]).map
      (fun res => (res.1.buffer.map updateId, res.1.buffer.map updateTimestamp,
                   res.2.map fun r => (r.1, r.2.map updateId))) =
      some (["m1"], [some 100], [(2, ["b1"])]) := rfl

/-- Claim C5 (amended): starting from an empty buffer (`max_updates = 3`,
no `max_delay`), ingesting `A(block, h=H, ts=T)` followed by
`A(microblock, h=H, ts=none)` sets the microblock's timestamp to `T` and
immediately triggers a flush whose emitted batch contains exactly one event
(the parent block), while the microblock remains in the buffer; ingesting one
further full-block `Append` produces no additional flush (the delayed
microblock stays buffered ahead of it). -/
theorem microblock_delay_amended (H T T2 : Nat) :
    (runBatcher { max_updates := some 3, max_delay := none } (initialState 0)
        [(.Append { block_id := "b1", height := H, timestamp := some T,
                    is_microblock := false, transactions := [] }, 0),
         (.Append { block_id := "m1", height := H, timestamp := none,
                    is_microblock := true, transactions := [] }, 1),
         (.Append { block_id := "b2", height := H + 1, timestamp := some T2,
                    is_microblock := false, transactions := [] }, 2)]).map
      (fun res => (res.1.buffer.map updateId, res.1.buffer.map updateTimestamp,
                   res.2.map fun r => (r.1, r.2.map updateId))) =
      some (["m1", "b2"], [some T, some T2], [(2, ["b1"])]) := by
  simp [runBatcher_cons, runBatcher_nil, stepBatcher, push_update, need_flush, flush,
    initialState, isRollbackUpdate, updateId, updateTimestamp]

/-- Claim C10: a reachable batcher state flushes an empty batch: with
`max_updates = 1`, after `A(block b1)` is flushed, a single delayed microblock
alone in the buffer trips the size rule; the flush detaches the microblock as
the delayed tail, emits a zero-length batch, and re-buffers the microblock.
The run below records the flushes `(buffer size at flush, batch length)` as
`[(1, 1), (1, 0)]`: the second flush delivered an empty batch to the writer
while the microblock stayed buffered. -/
theorem flush_emits_empty_batch :
    (runBatcher { max_updates := some 1, max_delay := none } (initialState 0)
        [(.Append { block_id := "b1", height := 1, timestamp := some 100,
                    is_microblock := false, transactions := [] }, 0),
         (.Append { block_id := "m1", height := 1, timestamp := none,
                    is_microblock := true, transactions := [] }, 0)]).map
      (fun res => (res.1.buffer.map updateId, res.2.map fun r => (r.1, r.2.length))) =
      some (["m1"], [(1, 1), (1, 0)]) := rfl

/-- Claim C6, counterexample: the `N + 1` bound on buffer size at flush time
fails.  First conjunct: with `max_updates = 1`, two rollbacks whose target is
not buffered accumulate behind the no-flush-on-rollback-tail rule, and the
next append flushes with buffer size `3 > 1 + 1`.  Second conjunct: with
`max_updates = 0`, a delayed microblock plus the next block flush with buffer
size `2 > 0 + 1`. -/
theorem flush_size_bound_violated :
    (((runBatcher { max_updates := some 1, max_delay := none } (initialState 0)
        [(.Rollback { block_id := "x" }, 0),
         (.Rollback { block_id := "y" }, 0),
         (.Append { block_id := "b1", height := 1, timestamp := some 100,
                    is_microblock := false, transactions := [] }, 0)]).map
      (fun res => res.2.map Prod.fst) = some [3]) ∧ ¬ (3 ≤ 1 + 1)) ∧
    (((runBatcher { max_updates := some 0, max_delay := none } (initialState 0)
        [(.Append { block_id := "b1", height := 1, timestamp := some 100,
                    is_microblock := false, transactions := [] }, 0),
         (.Append { block_id := "m1", height := 1, timestamp := none,
                    is_microblock := true, transactions := [] }, 0),
         (.Append { block_id := "b2", height := 2, timestamp := some 200,
                    is_microblock := false, transactions := [] }, 0)]).map
      (fun res => res.2.map Prod.fst) = some [1, 1, 2]) ∧ ¬ (2 ≤ 0 + 1)) :=
  ⟨⟨rfl, by decide⟩, ⟨rfl, by decide⟩⟩

theorem need_flush_false_length_lt (N : Nat) (md : Option Nat) (now : Nat) (st : BatcherState)
    (hne : st.buffer.isEmpty = false)
    (hnr : st.buffer.any isRollbackUpdate = false)
    (h : need_flush { max_updates := some N, max_delay := md } now st = false) :
    st.buffer.length < N := by
  unfold need_flush at h
  rw [hne] at h
  cases hl : st.buffer.getLast? with
  | none =>
    exact absurd (List.getLast?_eq_none_iff.mp hl)
      (by simpa [List.isEmpty_iff] using hne)
  | some u =>
    cases u with
    | Rollback r =>
      have hmem : ¬ isRollbackUpdate (BlockchainUpdate.Rollback r) = true :=
        List.any_eq_false.mp hnr _ (List.mem_of_mem_getLast? hl)
      simp [isRollbackUpdate] at hmem
    | Append a =>
      rw [hl, hnr] at h
      dsimp only at h
      simp only [Bool.false_eq_true, if_false] at h
      by_cases h4 : (decide (st.buffer.length > 1) && a.is_microblock) = true
      · rw [if_pos h4] at h
        cases h
      · rw [if_neg h4] at h
        by_cases h5 : decide (st.buffer.length ≥ N) = true
        · rw [if_pos h5] at h
          cases h
        · exact Nat.lt_of_not_le (by simpa using h5)

theorem push_update_append_shape (st : BatcherState) (a : AppendBlock) (stp : BatcherState)
    (h : push_update st (.Append a) = some stp) :
    ∃ b, stp.buffer = st.buffer ++ [BlockchainUpdate.Append b] := by
  simp only [push_update] at h
  by_cases hc : (a.is_microblock && a.timestamp.isNone) = true
  · rw [if_pos hc] at h
    cases hh : st.last_block_height with
    | none => rw [hh] at h; cases h
    | some last_height =>
      rw [hh] at h
      dsimp only at h
      by_cases heq : last_height = a.height
      · rw [if_pos heq] at h
        cases hts : st.last_block_timestamp with
        | none => rw [hts] at h; cases h
        | some t => rw [hts] at h; cases h; exact ⟨_, rfl⟩
      · rw [if_neg heq] at h; cases h
  · rw [if_neg hc] at h
    cases h
    exact ⟨a, rfl⟩

theorem runBatcher_flush_size_aux (N : Nat) (hN : 1 ≤ N) (md : Option Nat)
    (events : List (BlockchainUpdate × Nat)) (st : BatcherState)
    (hbuf : ∀ u ∈ st.buffer, isRollbackUpdate u = false)
    (hlen : st.buffer.length ≤ N - 1 ∨ st.buffer.length ≤ 1)
    (hev : ∀ e ∈ events, isRollbackUpdate e.1 = false)
    (res : BatcherState × List (Nat × List BlockchainUpdate))
    (h : runBatcher { max_updates := some N, max_delay := md } st events = some res) :
    ∀ r ∈ res.2, r.1 ≤ N + 1 := by
  induction events generalizing st res with
  | nil =>
    rw [runBatcher_nil] at h
    cases h
    intro r hr
    simp at hr
  | cons e rest ih =>
    obtain ⟨ev, now⟩ := e
    have hevHead : isRollbackUpdate ev = false := hev (ev, now) (by simp)
    have hevRest : ∀ e ∈ rest, isRollbackUpdate e.1 = false :=
      fun e he => hev e (by simp [he])
    cases ev with
    | Rollback r => simp [isRollbackUpdate] at hevHead
    | Append a =>
      rw [runBatcher_cons] at h
      cases hs : stepBatcher { max_updates := some N, max_delay := md } st (.Append a) now with
      | none => rw [hs] at h; cases h
      | some pr =>
        obtain ⟨st1, rec?⟩ := pr
        rw [hs] at h
        dsimp only at h
        cases hrun : runBatcher { max_updates := some N, max_delay := md } st1 rest with
        | none => rw [hrun] at h; cases h
        | some pr2 =>
          obtain ⟨stf, recs⟩ := pr2
          rw [hrun] at h
          dsimp only at h
          cases h
          simp only [stepBatcher] at hs
          cases hp : push_update st (.Append a) with
          | none => rw [hp] at hs; cases hs
          | some stp =>
            rw [hp] at hs
            dsimp only at hs
            obtain ⟨b, hshape⟩ := push_update_append_shape st a stp hp
            have hstpbuf : ∀ u ∈ stp.buffer, isRollbackUpdate u = false := by
              intro u hu
              rw [hshape] at hu
              rcases List.mem_append.mp hu with hu | hu
              · exact hbuf u hu
              · simp only [List.mem_singleton] at hu
                subst hu
                rfl
            have hstplen : stp.buffer.length = st.buffer.length + 1 := by
              rw [hshape]; simp
            by_cases hnf : need_flush { max_updates := some N, max_delay := md } now stp = true
            · rw [if_pos hnf] at hs
              cases hs
              intro r hr
              simp only [List.cons_append, List.nil_append, List.mem_cons] at hr
              rcases hr with hr | hr
              · subst hr
                rw [hstplen]
                rcases hlen with hl | hl
                · calc st.buffer.length + 1 ≤ (N - 1) + 1 := Nat.add_le_add_right hl 1
                    _ ≤ N + 1 := Nat.add_le_add_right (Nat.sub_le N 1) 1
                · calc st.buffer.length + 1 ≤ 1 + 1 := Nat.add_le_add_right hl 1
                    _ ≤ N + 1 := Nat.add_le_add_right hN 1
              · refine ih (flush now stp).1 ?_ ?_ ?_ (stf, recs) hrun r hr
                · intro u hu
                  exact hstpbuf u ((flush_mem_subset now stp).1 u hu)
                · right
                  unfold flush
                  cases hlast : stp.buffer.getLast? with
                  | none => simp
                  | some u =>
                    cases u with
                    | Append c => by_cases hmb : c.is_microblock <;> simp [hmb]
                    | Rollback rr => simp
                · exact hevRest
            · rw [if_neg hnf] at hs
              cases hs
              have hlt : st1.buffer.length < N := by
                refine need_flush_false_length_lt N md now st1 ?_ ?_
                  (Bool.not_eq_true _ |>.mp hnf)
                · rw [hshape]
                  simp [List.isEmpty_iff]
                · exact List.any_eq_false.mpr (by
                    intro u hu
                    simp [hstpbuf u hu])
              refine ih _ hstpbuf ?_ hevRest (stf, recs) hrun
              left
              omega

/-- Claim C6 (amended): with `max_updates = N ≥ 1` and any `max_delay`, over
every ingested event sequence that contains no Rollback events, whenever the
batcher flushes, the buffer size at flush time is at most `N + 1` (the one
extra element being the delayed microblock tail).  (Both restrictions are
forced: unmatched rollbacks accumulate behind the no-flush-on-rollback-tail
rule and then flush in one oversized batch, and `N = 0` lets the delayed
microblock plus one update flush at size `2 > 0 + 1`.) -/
theorem flush_size_bounded (N : Nat) (hN : 1 ≤ N) (md : Option Nat)
    (events : List (BlockchainUpdate × Nat)) (now0 : Nat)
    (hev : ∀ e ∈ events, isRollbackUpdate e.1 = false)
    (res : BatcherState × List (Nat × List BlockchainUpdate))
    (h : runBatcher { max_updates := some N, max_delay := md } (initialState now0) events
          = some res) :
    ∀ r ∈ res.2, r.1 ≤ N + 1 :=
  runBatcher_flush_size_aux N hN md events (initialState now0)
    (fun u hu => by simp [initialState] at hu) (by simp [initialState]) hev res h

/-- Witness for the amended claim C6: `N = 1`, a single full-block append,
whose immediate flush record has buffer size `1 ≤ 2`. -/
theorem flush_size_bounded_witness :
    ((1 : Nat),
     [BlockchainUpdate.Append { block_id := "b1", height := 1, timestamp := some 100,
                                is_microblock := false, transactions := [] }]).1 ≤ 1 + 1 :=
  flush_size_bounded 1 (by decide) none
    [(.Append { block_id := "b1", height := 1, timestamp := some 100,
                is_microblock := false, transactions := [] }, 0)] 0
    (by rintro e he; simp only [List.mem_singleton] at he; subst he; rfl)
    ({ buffer := [], last_block_timestamp := some 100, last_block_height := some 1,
       last_flush := 0 },
     [(1, [.Append { block_id := "b1", height := 1, timestamp := some 100,
                     is_microblock := false, transactions := [] }])])
    rfl
    (1, [.Append { block_id := "b1", height := 1, timestamp := some 100,
                   is_microblock := false, transactions := [] }])
    (by simp)

/-! String-encoding helpers of the convert module in src/consumer/updates.rs.
Rust `str::as_bytes` yields the UTF-8 encoding of the scalar-value sequence;
`utf8EncodeCodepoint` is that standard encoding, byte values as `Nat`. -/

def utf8EncodeCodepoint (c : Nat) : List Nat :=
  if c < 0x80 then [c]
  else if c < 0x800 then [0xC0 ||| (c >>> 6), 0x80 ||| (c &&& 0x3F)]
  else if c < 0x10000 then
    [0xE0 ||| (c >>> 12), 0x80 ||| ((c >>> 6) &&& 0x3F), 0x80 ||| (c &&& 0x3F)]
  else
    [0xF0 ||| (c >>> 18), 0x80 ||| ((c >>> 12) &&& 0x3F),
     0x80 ||| ((c >>> 6) &&& 0x3F), 0x80 ||| (c &&& 0x3F)]

def strBytes (s : String) : List Nat :=
  (s.data.map Char.toNat).flatMap utf8EncodeCodepoint

/-- `u16::from_le_bytes([a, b])`. -/
def u16FromLeBytes (a b : Nat) : Nat := a + 256 * b

/-- `u16::from_be_bytes([a, b])`. -/
def u16FromBeBytes (a b : Nat) : Nat := 256 * a + b

/-- `data.chunks(2)` with each chunk put through `try_into` and `convert`: a
trailing one-byte chunk fails `try_into`, which fails the whole conversion. -/
def chunksToU16 (convert : Nat → Nat → Nat) : List Nat → Option (List Nat)
  | [] => some []
  | [_] => none
  | a :: b :: rest => (chunksToU16 convert rest).map (fun l => convert a b :: l)

/-- `String::from_utf16`: decode UTF-16 code units pairing surrogates; any
lone or ill-formed surrogate is an error. -/
def utf16Decode : List Nat → Option (List Char)
  | [] => some []
  | u :: rest =>
    if u < 0xD800 || 0xE000 ≤ u then
      (utf16Decode rest).map (fun cs => Char.ofNat u :: cs)
    else if u < 0xDC00 then
      match rest with
      | lo :: rest2 =>
        if 0xDC00 ≤ lo && lo < 0xE000 then
          (utf16Decode rest2).map
            (fun cs => Char.ofNat (0x10000 + (u - 0xD800) * 0x400 + (lo - 0xDC00)) :: cs)
        else none
      | [] => none
    else none

/-- `parse_utf16(data, convert)`: chunk into u16 code units, then decode. -/
def parse_utf16 (convert : Nat → Nat → Nat) (data : List Nat) : Option String :=
  (chunksToU16 convert data).bind (fun data16 => (utf16Decode data16).map String.mk)

def REPLACEMENT_CHARACTER : Char := Char.ofNat 0xFFFD

/-- `remove_broken_bom_and_parse_utf16`: drop the 4 UTF-8 bytes of the broken
BOM, parse the rest as UTF-16, and substitute `U+FFFD` on failure. -/
def remove_broken_bom_and_parse_utf16 (s : String) (convert : Nat → Nat → Nat) : String :=
  (parse_utf16 convert ((strBytes s).drop 4)).getD (String.mk [REPLACEMENT_CHARACTER])

/-- `s.starts_with(p)` for a two-codepoint pattern, checked on the first two
code points (equivalent to the byte-prefix check on the UTF-8 encoding). -/
def startsWithPair (s : String) (c1 c2 : Char) : Bool :=
  match s.data with
  | a :: b :: _ => a == c1 && b == c2
  | _ => false

/-- `fix_unicode_string` from src/consumer/updates.rs. -/
def fix_unicode_string (s : String) : String :=
  if startsWithPair s 'ÿ' 'þ' then
    remove_broken_bom_and_parse_utf16 s u16FromLeBytes
  else if startsWithPair s 'þ' 'ÿ' then
    remove_broken_bom_and_parse_utf16 s u16FromBeBytes
  else
    s

/-- bs58 alphabet. -/
def base58Alphabet : List Char :=
  "123456789ABCDEFGHJKLMNPQRSTUVWXYZabcdefghijkmnopqrstuvwxyz".data

def natToBase58Digits (n : Nat) : List Nat :=
  if h : n = 0 then [] else (n % 58) :: natToBase58Digits (n / 58)
termination_by n
decreasing_by exact Nat.div_lt_self (Nat.pos_of_ne_zero h) (by decide)

/-- bs58 standard encoding: one leading '1' per leading zero byte, then the
big-endian base-58 digit string of the byte string's value. -/
def base58 (bytes : List Nat) : String :=
  let n := bytes.foldl (fun acc b => acc * 256 + b) 0
  let digits := (natToBase58Digits n).reverse.map (fun d => base58Alphabet.getD d '1')
  let zeros := (bytes.takeWhile (fun b => b == 0)).length
  String.mk (List.replicate zeros '1' ++ digits)

def base64Alphabet : List Char :=
  "ABCDEFGHIJKLMNOPQRSTUVWXYZabcdefghijklmnopqrstuvwxyz0123456789+/".data

def base64Char (n : Nat) : Char := base64Alphabet.getD n '='

/-- RFC 4648 standard base64 with padding (`base64::STANDARD`). -/
def base64Encode : List Nat → List Char
  | [] => []
  | [a] => [base64Char (a >>> 2), base64Char ((a &&& 3) <<< 4), '=', '=']
  | [a, b] => [base64Char (a >>> 2), base64Char (((a &&& 3) <<< 4) ||| (b >>> 4)),
               base64Char ((b &&& 15) <<< 2), '=']
  | a :: b :: c :: rest =>
    base64Char (a >>> 2) :: base64Char (((a &&& 3) <<< 4) ||| (b >>> 4)) ::
    base64Char (((b &&& 15) <<< 2) ||| (c >>> 6)) :: base64Char (c &&& 63) ::
    base64Encode rest

/-- The `base64` helper of updates.rs: `"base64:"` prefix plus standard base64. -/
def base64 (bytes : List Nat) : String :=
  "base64:" ++ String.mk (base64Encode bytes)

/-! Upstream wire-schema values used by the convert module, with only the
fields the conversion reads (the remaining protobuf fields are never touched
by the source and are omitted).  Byte strings are `List Nat`. -/

/-- `u64` view of an `i64` (`x as u64`). -/
def i64AsU64 (i : Int) : Nat := (i % (2 ^ 64 : Int)).toNat

/-- `invoke_script_result::call::argument::Value`; an `Argument` is its
optional `value` field, so argument lists are `List (Option Value)`. -/
inductive Value where
  | IntegerValue (v : Int)
  | BinaryValue (v : List Nat)
  | StringValue (v : String)
  | BooleanValue (v : Bool)
  | CaseObjValue (v : List Nat)
  | ListValue (items : List (Option Value))

structure WavesAmount where
  amount : Int
  asset_id : List Nat
deriving DecidableEq

structure InvokeScriptMetadata where
  d_app_address : List Nat
  function_name : String
  arguments : List (Option Value)
  payments : List WavesAmount

/-- `ethereum_metadata::Action` (oneof transfer / invoke). -/
inductive EthAction where
  | Invoke (m : InvokeScriptMetadata)
  | Transfer

structure EthereumMetadata where
  action : Option EthAction
  fee : Int
  sender_public_key : List Nat
  timestamp : Int

/-- `transaction_metadata::Metadata`; `OtherMetadata` stands for every variant
other than `InvokeScript` and `Ethereum`, which the conversion treats
uniformly through its wildcard arms. -/
inductive Metadata where
  | InvokeScript (m : InvokeScriptMetadata)
  | Ethereum (m : EthereumMetadata)
  | OtherMetadata

structure TransactionMetadata where
  sender_address : List Nat
  metadata : Option Metadata

structure InvokeScriptTransactionData where
  payments : List WavesAmount

/-- `transaction::Data`; `OtherData` stands for the non-InvokeScript payloads. -/
inductive WavesTxData where
  | InvokeScript (d : InvokeScriptTransactionData)
  | OtherData

structure WavesTransaction where
  data : Option WavesTxData
  fee : Option WavesAmount
  sender_public_key : List Nat
  timestamp : Int

/-- `signed_transaction::Transaction`; the raw ethereum payload bytes are
never read by the conversion. -/
inductive TransactionEnum where
  | WavesTransaction (tx : WavesTransaction)
  | EthereumTransaction

structure SignedTransaction where
  transaction : Option TransactionEnum
  proofs : List (List Nat)

structure BlockInfo where
  height : Nat
  timestamp : Option Nat

def extract_op_type (meta : TransactionMetadata) : Option OperationType :=
  match meta.metadata with
  | some (.InvokeScript _) => some .InvokeScript
  | some (.Ethereum { action := some (.Invoke _), .. }) => some .InvokeScript
  | _ => none

def extract_tx_type (meta : TransactionMetadata) : Option TransactionType :=
  match meta.metadata with
  | some (.InvokeScript _) => some .InvokeScript
  | some (.Ethereum { action := some (.Invoke _), .. }) => some .EthereumTransaction
  | _ => none

inductive TransactionData where
  | Waves (tx : WavesTransaction)
  | Ethereum (m : EthereumMetadata)

def extract_transaction_data (tx : SignedTransaction) (meta : TransactionMetadata) :
    Option TransactionData :=
  match tx.transaction, meta.metadata with
  | some (.WavesTransaction wtx), _ => some (.Waves wtx)
  | some .EthereumTransaction, some (.Ethereum em) => some (.Ethereum em)
  | _, _ => none

structure InvokeScriptData where
  waves_data : Option InvokeScriptTransactionData
  meta : InvokeScriptMetadata

def extract_invoke_script_data (tx : SignedTransaction) (meta : TransactionMetadata) :
    Except String InvokeScriptData :=
  match (match tx.transaction with
         | some (.WavesTransaction { data := some (.InvokeScript d), .. }) =>
           Except.ok (some d)
         | some .EthereumTransaction => Except.ok none
         | _ => Except.error "unexpected InvokeScript transaction contents") with
  | .error e => .error e
  | .ok waves_data =>
    match meta.metadata with
    | some (.InvokeScript m) => .ok { waves_data, meta := m }
    | some (.Ethereum { action := some (.Invoke m), .. }) => .ok { waves_data, meta := m }
    | _ => .error "unexpected InvokeScript metadata contents"

def convert_amount (a : WavesAmount) : Amount :=
  Amount.new a.amount (if a.asset_id.isEmpty then none else some (base58 a.asset_id))

def TransactionData.get_fee : TransactionData → Option Amount
  | .Waves wtx => wtx.fee.map convert_amount
  | .Ethereum etx => some (Amount.new etx.fee none)

def TransactionData.get_sender_public_key : TransactionData → List Nat
  | .Waves wtx => wtx.sender_public_key
  | .Ethereum etx => etx.sender_public_key

def TransactionData.get_timestamp : TransactionData → Nat
  | .Waves wtx => i64AsU64 wtx.timestamp
  | .Ethereum etx => i64AsU64 etx.timestamp

/-- `InvokeScriptData::get_payments`; `none` models the
`assert_eq!(data.payments, self.meta.payments)` panic. -/
def InvokeScriptData.get_payments (d : InvokeScriptData) : Option (List Amount) :=
  match d.waves_data with
  | some data =>
    if data.payments = d.meta.payments then some (data.payments.map convert_amount) else none
  | none => some (d.meta.payments.map convert_amount)

mutual

def convertArgument : Option Value → Except String Arg
  | none => .error "missing argument"
  | some v => convertValue v

def convertValue : Value → Except String Arg
  | .IntegerValue v => .ok (.Integer v)
  | .BinaryValue v => .ok (.Binary (base64 v))
  | .StringValue v => .ok (.String (fix_unicode_string v))
  | .BooleanValue v => .ok (.Boolean v)
  | .CaseObjValue v => .ok (.CaseObj (base64 v))
  | .ListValue items => (convert_args items).map Arg.List

/-- `convert_args` inside `InvokeScriptData::get_call`: first error wins. -/
def convert_args : List (Option Value) → Except String (List Arg)
  | [] => .ok []
  | a :: rest =>
    match convertArgument a with
    | .error e => .error e
    | .ok x =>
      match convert_args rest with
      | .error e => .error e
      | .ok xs => .ok (x :: xs)

end

def InvokeScriptData.get_call (d : InvokeScriptData) : Except String Call :=
  (convert_args d.meta.arguments).map fun args => { function := d.meta.function_name, args }

/-- Outcome of `convert_tx`: Rust's `Result<Option<Transaction>, ConvertError>`
with the payments-assertion panic kept apart. -/
inductive TxResult where
  | panicked (msg : String)
  | convertError (msg : String)
  | skip
  | keep (t : Transaction)

/-- `convert_tx` from the convert module, evaluated in source order: op type,
tx type, transaction-data view, invoke view, then the `Transaction` literal's
fallible fields (fee, payments assertion, call).  The `timestamp` field keeps
the raw millisecond value (see the `Transaction` doc comment). -/
def convert_tx (id : List Nat) (tx : SignedTransaction) (meta : TransactionMetadata)
    (block_info : BlockInfo) : TxResult :=
  match extract_op_type meta with
  | none => .skip
  | some op_type =>
    match extract_tx_type meta with
    | none => .convertError "missing tx type"
    | some tx_type =>
      match extract_transaction_data tx meta with
      | none => .convertError "missing tx data"
      | some tx_data =>
        match extract_invoke_script_data tx meta with
        | .error e => .convertError e
        | .ok invoke_script_data =>
          match tx_data.get_fee with
          | none => .convertError "fee"
          | some fee =>
            match invoke_script_data.get_payments with
            | none => .panicked "assertion failed: data.payments == self.meta.payments"
            | some payment =>
              match invoke_script_data.get_call with
              | .error e => .convertError e
              | .ok call =>
                .keep {
                  id := base58 id
                  op_type
                  tx_type
                  height := block_info.height
                  timestamp := tx_data.get_timestamp
                  fee
                  sender := base58 meta.sender_address
                  sender_public_key := base58 tx_data.get_sender_public_key
                  proofs := tx.proofs.map base58
                  dapp := base58 invoke_script_data.meta.d_app_address
                  payment
                  call }

/-- Claim C7: `fix_unicode_string` drops the first 4 UTF-8 bytes and decodes
the rest as UTF-16 little-endian when the string starts with the two-codepoint
sequence "ÿþ", as UTF-16 big-endian when it starts with "þÿ" (substituting
U+FFFD on any decode failure), and returns every other string unchanged; in
particular it maps the misencoded string "ÿþH\x00i\x00" to "Hi". -/
theorem fix_unicode_string_spec :
    (∀ s : String, startsWithPair s 'ÿ' 'þ' = true →
      fix_unicode_string s =
        (parse_utf16 u16FromLeBytes ((strBytes s).drop 4)).getD
          (String.mk [REPLACEMENT_CHARACTER])) ∧
    (∀ s : String, startsWithPair s 'ÿ' 'þ' = false → startsWithPair s 'þ' 'ÿ' = true →
      fix_unicode_string s =
        (parse_utf16 u16FromBeBytes ((strBytes s).drop 4)).getD
          (String.mk [REPLACEMENT_CHARACTER])) ∧
    (∀ s : String, startsWithPair s 'ÿ' 'þ' = false → startsWithPair s 'þ' 'ÿ' = false →
      fix_unicode_string s = s) ∧
    fix_unicode_string
        (String.mk [Char.ofNat 0xFF, Char.ofNat 0xFE, 'H', Char.ofNat 0, 'i', Char.ofNat 0]) =
      "Hi" := by
  refine ⟨?_, ?_, ?_, by decide⟩
  · intro s h
    simp [fix_unicode_string, h, remove_broken_bom_and_parse_utf16]
  · intro s h1 h2
    simp [fix_unicode_string, h1, h2, remove_broken_bom_and_parse_utf16]
  · intro s h1 h2
    simp [fix_unicode_string, h1, h2]

/-- Witness for claim C7: the LE branch at the concrete misencoded string and
the pass-through branch at a plain string. -/
theorem fix_unicode_string_spec_witness :
    fix_unicode_string
        (String.mk [Char.ofNat 0xFF, Char.ofNat 0xFE, 'H', Char.ofNat 0, 'i', Char.ofNat 0]) =
      (parse_utf16 u16FromLeBytes
        ((strBytes (String.mk [Char.ofNat 0xFF, Char.ofNat 0xFE, 'H', Char.ofNat 0, 'i',
                               Char.ofNat 0])).drop 4)).getD
        (String.mk [REPLACEMENT_CHARACTER]) ∧
    fix_unicode_string "plain" = "plain" :=
  ⟨fix_unicode_string_spec.1 _ (by decide),
   fix_unicode_string_spec.2.2.1 "plain" (by decide) (by decide)⟩

/-- Claim C8, counterexample: a triple whose metadata is native `InvokeScript`
metadata but whose signed transaction carries no body is NOT kept — it raises
`ConvertError("missing tx data")` — so "the transaction is kept" does not hold
for every native-invoke triple. -/
theorem native_invoke_metadata_not_kept :
    convert_tx []
      { transaction := none, proofs := [] }
      { sender_address := [],
        metadata := some (.InvokeScript
          { d_app_address := [], function_name := "f", arguments := [], payments := [] }) }
      { height := 0, timestamp := none } = .convertError "missing tx data" := rfl

theorem convert_tx_shapes (id : List Nat) (tx : SignedTransaction)
    (meta : TransactionMetadata) (bi : BlockInfo) (ot : OperationType) (tt : TransactionType)
    (hop : extract_op_type meta = some ot) (htt : extract_tx_type meta = some tt) :
    convert_tx id tx meta bi ≠ .skip ∧
    ∀ t, convert_tx id tx meta bi = .keep t → t.op_type = ot ∧ t.tx_type = tt := by
  constructor
  · intro hskip
    unfold convert_tx at hskip
    rw [hop] at hskip
    dsimp only at hskip
    rw [htt] at hskip
    dsimp only at hskip
    repeat' split at hskip
    all_goals cases hskip
  · intro t ht
    unfold convert_tx at ht
    rw [hop] at ht
    dsimp only at ht
    rw [htt] at ht
    dsimp only at ht
    repeat' split at ht
    all_goals cases ht
    exact ⟨rfl, rfl⟩

/-- Claim C8 (amended): for every `(tx_id, signed_tx, tx_metadata)` triple:
with native `InvokeScript` metadata the triple is never silently skipped and,
whenever it is kept, carries `op_type = invoke_script` and `tx_type = 16`
(kept exactly when the structural extraction succeeds, otherwise a
`ConvertError` is raised); with foreign (ethereum) metadata whose action is
`Invoke` it is likewise never skipped and, when kept, carries
`op_type = invoke_script` and `tx_type = 18`; with any other metadata the
triple is skipped without producing an error. -/
theorem convert_tx_keep_skip (id : List Nat) (tx : SignedTransaction)
    (meta : TransactionMetadata) (bi : BlockInfo) :
    (∀ m, meta.metadata = some (.InvokeScript m) →
      convert_tx id tx meta bi ≠ .skip ∧
      ∀ t, convert_tx id tx meta bi = .keep t →
        t.op_type = .InvokeScript ∧ t.tx_type = .InvokeScript ∧ t.tx_type.code = 16) ∧
    (∀ em m, meta.metadata = some (.Ethereum em) → em.action = some (.Invoke m) →
      convert_tx id tx meta bi ≠ .skip ∧
      ∀ t, convert_tx id tx meta bi = .keep t →
        t.op_type = .InvokeScript ∧ t.tx_type = .EthereumTransaction ∧ t.tx_type.code = 18) ∧
    ((∀ m, meta.metadata ≠ some (.InvokeScript m)) →
     (∀ em m, meta.metadata = some (.Ethereum em) → em.action ≠ some (.Invoke m)) →
      convert_tx id tx meta bi = .skip) := by
  refine ⟨?_, ?_, ?_⟩
  · intro m hm
    have hop : extract_op_type meta = some .InvokeScript := by
      unfold extract_op_type; rw [hm]
    have htt : extract_tx_type meta = some .InvokeScript := by
      unfold extract_tx_type; rw [hm]
    have hsh := convert_tx_shapes id tx meta bi .InvokeScript .InvokeScript hop htt
    exact ⟨hsh.1, fun t ht => ⟨(hsh.2 t ht).1, (hsh.2 t ht).2, by rw [(hsh.2 t ht).2]; rfl⟩⟩
  · intro em m hm ha
    obtain ⟨act, f, k, ts⟩ := em
    simp only at ha
    subst ha
    have hop : extract_op_type meta = some .InvokeScript := by
      unfold extract_op_type; rw [hm]
    have htt : extract_tx_type meta = some .EthereumTransaction := by
      unfold extract_tx_type; rw [hm]
    have hsh := convert_tx_shapes id tx meta bi .InvokeScript .EthereumTransaction hop htt
    exact ⟨hsh.1, fun t ht => ⟨(hsh.2 t ht).1, (hsh.2 t ht).2, by rw [(hsh.2 t ht).2]; rfl⟩⟩
  · intro hno1 hno2
    have hop : extract_op_type meta = none := by
      unfold extract_op_type
      cases hm : meta.metadata with
      | none => rfl
      | some md =>
        cases md with
        | InvokeScript m => exact absurd hm (hno1 m)
        | Ethereum em =>
          obtain ⟨act, f, k, ts⟩ := em
          cases act with
          | none => rfl
          | some a =>
            cases a with
            | Invoke m => exact absurd rfl (hno2 ⟨some (.Invoke m), f, k, ts⟩ m hm)
            | Transfer => rfl
        | OtherMetadata => rfl
    unfold convert_tx
    rw [hop]

/-- Witness for the amended claim C8: a native-invoke triple (never skipped)
and an other-metadata triple (skipped). -/
theorem convert_tx_keep_skip_witness :
    (convert_tx []
        { transaction := none, proofs := [] }
        { sender_address := [],
          metadata := some (.InvokeScript
            { d_app_address := [], function_name := "f", arguments := [], payments := [] }) }
        { height := 0, timestamp := none } ≠ .skip) ∧
    convert_tx []
      { transaction := none, proofs := [] }
      { sender_address := [], metadata := none }
      { height := 0, timestamp := none } = .skip :=
  ⟨(convert_tx_keep_skip [] { transaction := none, proofs := [] }
      { sender_address := [],
        metadata := some (.InvokeScript
          { d_app_address := [], function_name := "f", arguments := [], payments := [] }) }
      { height := 0, timestamp := none }).1
      { d_app_address := [], function_name := "f", arguments := [], payments := [] } rfl |>.1,
   (convert_tx_keep_skip [] { transaction := none, proofs := [] }
      { sender_address := [], metadata := none }
      { height := 0, timestamp := none }).2.2
      (fun m h => by cases h) (fun em m h => by cases h)⟩

/-! Store model: the two tables of src/schema.rs with the row operations of
src/consumer/storage.rs.  `uid` columns are the monotonic bigserial
surrogates; rows are kept in insertion order.  The `operation` jsonb column
holds the JSON document serialized from the `Transaction`, modelled as the
value itself (serde serialization of the record cannot fail). -/

structure BlockRow where
  uid : Int
  id : String
  height : Nat
  time_stamp : Nat

structure TxRow where
  uid : Int
  id : String
  block_uid : Int
  sender : String
  tx_type : Nat
  op_type : OperationType
  operation : Transaction

structure Store where
  blocks : List BlockRow
  txs : List TxRow
  next_block_uid : Int
  next_tx_uid : Int

/-- `insert_block`: insert the row, return the uid the database assigned. -/
def insert_block (s : Store) (id : String) (height : Nat) (timestamp : Nat) : Int × Store :=
  (s.next_block_uid,
   { s with
      blocks := s.blocks ++ [{ uid := s.next_block_uid, id, height, time_stamp := timestamp }],
      next_block_uid := s.next_block_uid + 1 })

/-- `insert_tx`: storage.rs always writes `op_type = InvokeScript`. -/
def insert_tx (s : Store) (id : String) (block_uid : Int) (sender : String) (tx_type : Nat)
    (operation : Transaction) : Store :=
  { s with
      txs := s.txs ++ [{ uid := s.next_tx_uid, id, block_uid, sender, tx_type,
                         op_type := .InvokeScript, operation }],
      next_tx_uid := s.next_tx_uid + 1 }

/-- `block_uid`: uid of the row with the given block id; `get_result` raises
a database error when no row matches, modelled as `none`. -/
def block_uid (s : Store) (id : String) : Option Int :=
  (s.blocks.find? (fun b => b.id == id)).map (fun b => b.uid)

/-- `rollback_to_block`: `DELETE FROM blocks_microblocks WHERE uid > $1`.
Transaction rows cascade through the `block_uid` foreign key (spec §3
invariant; the migration carrying the constraint is not under src/), so
exactly the transaction rows whose `block_uid` exceeds the target go too. -/
def rollback_to_block (s : Store) (target : Int) : Store :=
  { s with
      blocks := s.blocks.filter (fun b => !(b.uid > target)),
      txs := s.txs.filter (fun t => !(t.block_uid > target)) }

/-- One event of `write_batch`'s loop.  `none` models both the
`.expect("block timestamp")` panic and a failed `block_uid` lookup; either
aborts the enclosing store transaction with nothing applied. -/
def applyUpdate (s : Store) (u : BlockchainUpdate) : Option Store :=
  match u with
  | .Append a =>
    match a.timestamp with
    | none => none
    | some ts =>
      let r := insert_block s a.block_id a.height ts
      some (a.transactions.foldl
        (fun acc t => insert_tx acc t.id r.1 t.sender t.tx_type.code t) r.2)
  | .Rollback rb =>
    match block_uid s rb.block_id with
    | none => none
    | some uid => some (rollback_to_block s uid)

/-- `write_batch` from src/consumer/mod.rs: the batch applied event by event
in order inside a single store transaction (metrics gauges omitted). -/
def write_batch : List BlockchainUpdate → Store → Option Store
  | [], s => some s
  | u :: rest, s =>
    match applyUpdate s u with
    | none => none
    | some s1 => write_batch rest s1

/-- The transaction rows an `Append`'s inner loop inserts: one per transaction
in list order, all referencing the append's block uid, with consecutive
transaction uids starting at `firstTxUid`. -/
def txRowsFor (buid : Int) : List Transaction → Int → List TxRow
  | [], _ => []
  | t :: rest, firstTxUid =>
    { uid := firstTxUid, id := t.id, block_uid := buid, sender := t.sender,
      tx_type := t.tx_type.code, op_type := .InvokeScript, operation := t } ::
    txRowsFor buid rest (firstTxUid + 1)

theorem foldl_insert_tx (buid : Int) (txs : List Transaction) (s : Store) :
    txs.foldl (fun acc t => insert_tx acc t.id buid t.sender t.tx_type.code t) s =
      { s with
          txs := s.txs ++ txRowsFor buid txs s.next_tx_uid,
          next_tx_uid := s.next_tx_uid + txs.length } := by
  induction txs generalizing s with
  | nil => simp [txRowsFor]
  | cons t rest ih =>
    rw [List.foldl_cons, ih]
    simp only [insert_tx, txRowsFor, List.append_assoc, List.singleton_append, List.length_cons]
    simp only [Store.mk.injEq, true_and, and_true]
    push_cast
    ring

/-- Claim C3: within one all-or-nothing store transaction the writer applies
the batch's events in order; an `Append` inserts its block row (getting the
fresh block uid) and then one transaction row per transaction in the append's
order, all carrying that block uid; an `Append` without a timestamp is the
writer's programmer-error panic; a `Rollback` looks up the target's uid and
deletes exactly the block rows with a strictly greater uid (the target row
itself is retained, transaction rows cascade by block uid). -/
theorem write_batch_applies_in_order :
    (∀ (u : BlockchainUpdate) (rest : List BlockchainUpdate) (s : Store),
      write_batch (u :: rest) s =
        match applyUpdate s u with
        | none => none
        | some s1 => write_batch rest s1) ∧
    (∀ (a : AppendBlock) (s : Store) (ts : Nat), a.timestamp = some ts →
      applyUpdate s (.Append a) =
        some { s with
          blocks := s.blocks ++ [{ uid := s.next_block_uid, id := a.block_id,
                                   height := a.height, time_stamp := ts }],
          txs := s.txs ++ txRowsFor s.next_block_uid a.transactions s.next_tx_uid,
          next_block_uid := s.next_block_uid + 1,
          next_tx_uid := s.next_tx_uid + a.transactions.length }) ∧
    (∀ (a : AppendBlock) (s : Store), a.timestamp = none →
      applyUpdate s (.Append a) = none) ∧
    (∀ (rb : Rollback) (s : Store) (uid : Int), block_uid s rb.block_id = some uid →
      applyUpdate s (.Rollback rb) =
        some { s with
          blocks := s.blocks.filter (fun b => decide (b.uid ≤ uid)),
          txs := s.txs.filter (fun t => decide (t.block_uid ≤ uid)) }) ∧
    (∀ (rb : Rollback) (s : Store) (uid : Int), block_uid s rb.block_id = some uid →
      ∀ b ∈ s.blocks, b.uid ≤ uid → b ∈ (rollback_to_block s uid).blocks) := by
  refine ⟨fun u rest s => rfl, ?_, ?_, ?_, ?_⟩
  · intro a s ts hts
    simp only [applyUpdate, hts, insert_block]
    rw [foldl_insert_tx]
  · intro a s hts
    simp only [applyUpdate, hts]
  · intro rb s uid hb
    simp only [applyUpdate, hb, rollback_to_block]
    congr 1
    simp only [Store.mk.injEq, true_and, and_true]
    refine ⟨List.filter_congr ?_, List.filter_congr ?_⟩
    · intro b _
      rw [← decide_not]
      exact decide_eq_decide.mpr Int.not_lt
    · intro t _
      rw [← decide_not]
      exact decide_eq_decide.mpr Int.not_lt
  · intro rb s uid hb b hmem hle
    simp only [rollback_to_block]
    exact List.mem_filter.mpr ⟨hmem, by simp [Int.not_lt, hle]⟩

def demoTransaction : Transaction :=
  { id := "t1", op_type := .InvokeScript, tx_type := .InvokeScript, height := 1,
    timestamp := 0, fee := { amount := 1, asset_id := "WAVES" }, sender := "s1",
    sender_public_key := "k1", proofs := [], dapp := "d1", payment := [],
    call := { function := "f", args := [] } }

def demoStore : Store :=
  { blocks := [{ uid := 1, id := "b0", height := 1, time_stamp := 50 }],
    txs := [], next_block_uid := 2, next_tx_uid := 1 }

/-- Witness for claim C3 at concrete inputs: an append with one transaction
against `demoStore`, a timestamp-less append, and a rollback to block `b0`. -/
theorem write_batch_applies_in_order_witness :
    (applyUpdate demoStore
        (.Append { block_id := "b1", height := 2, timestamp := some 100,
                   is_microblock := false, transactions := [demoTransaction] }) =
      some { demoStore with
        blocks := demoStore.blocks ++ [{ uid := 2, id := "b1", height := 2, time_stamp := 100 }],
        txs := demoStore.txs ++ txRowsFor 2 [demoTransaction] 1,
        next_block_uid := 3,
        next_tx_uid := 2 }) ∧
    (applyUpdate demoStore
        (.Append { block_id := "b2", height := 2, timestamp := none,
                   is_microblock := false, transactions := [] }) = none) ∧
    (applyUpdate demoStore (.Rollback { block_id := "b0" }) =
      some { demoStore with
        blocks := demoStore.blocks.filter (fun b => decide (b.uid ≤ 1)),
        txs := demoStore.txs.filter (fun t => decide (t.block_uid ≤ 1)) }) :=
  ⟨write_batch_applies_in_order.2.1
      { block_id := "b1", height := 2, timestamp := some 100,
        is_microblock := false, transactions := [demoTransaction] } demoStore 100 rfl,
   write_batch_applies_in_order.2.2.1
      { block_id := "b2", height := 2, timestamp := none,
        is_microblock := false, transactions := [] } demoStore rfl,
   write_batch_applies_in_order.2.2.2.1 { block_id := "b0" } demoStore 1 rfl⟩

/-! Read path: `PgRepo::fetch_operations` (src/service/repo.rs) and the
GET /operations handler (src/service/server.rs).  The transactions table is a
list of `TxRow`; SQL applies `ORDER BY uid` before `LIMIT` regardless of the
builder call order, modelled as sort-then-take. -/

structure Operation where
  tx_uid : Int
  body : Transaction

structure Page where
  start : Option Int
  limit : Nat

/-- `ORDER BY uid` ascending (uids are unique bigserial values). -/
def sortByUid (rows : List TxRow) : List TxRow :=
  rows.insertionSort (fun a b => a.uid ≤ b.uid)

/-- `PgRepo::fetch_operations` over the stored rows: optional filters applied
in source order, uid-ascending order, `limit + 1` rows requested, and the
extra row (when present) popped to become the next cursor. -/
def fetch_operations (rows : List TxRow) (op_types : Option (List OperationType))
    (sender : Option String) (page : Page) : List Operation × Option Int :=
  let q0 := rows
  let q1 := match op_types with
    | some ots => if ots.isEmpty then q0 else q0.filter (fun r => ots.contains r.op_type)
    | none => q0
  let q2 := match sender with
    | some snd => q1.filter (fun r => r.sender == snd)
    | none => q1
  let q3 := match page.start with
    | some from_uid => q2.filter (fun r => decide (from_uid ≤ r.uid))
    | none => q2
  let res := ((sortByUid q3).take (page.limit + 1)).map
    (fun r => { tx_uid := r.uid, body := r.operation : Operation })
  if res.length > page.limit then
    (res.dropLast, res.getLast?.map (fun o => o.tx_uid))
  else (res, none)

/-- The read-path selection as the spec words it: one conjunctive row filter,
uid-ascending order, `limit + 1` requested, cursor from the popped extra row. -/
def fetchOperationsSpec (rows : List TxRow) (op_types : Option (List OperationType))
    (sender : Option String) (page : Page) : List Operation × Option Int :=
  let keep : TxRow → Bool := fun r =>
    (match op_types with
     | some ots => if ots.isEmpty then true else ots.contains r.op_type
     | none => true) &&
    ((match sender with
      | some snd => r.sender == snd
      | none => true) &&
     (match page.start with
      | some from_uid => decide (from_uid ≤ r.uid)
      | none => true))
  let res := ((sortByUid (rows.filter keep)).take (page.limit + 1)).map
    (fun r => { tx_uid := r.uid, body := r.operation : Operation })
  if page.limit < res.length then
    (res.dropLast, res.getLast?.map (fun o => o.tx_uid))
  else (res, none)

def MAX_QUERY_LIMIT : Nat := 100

/-- `type__in` query values; only `invoke_script` exists. -/
inductive OpType where
  | InvokeScript

inductive GetOperationsError where
  | InvalidAfter
  | InvalidLimit
  | ServerError
deriving DecidableEq

def GetOperationsError.status_code : GetOperationsError → Nat
  | .InvalidAfter => 400
  | .InvalidLimit => 400
  | .ServerError => 500

structure OperationsQuery where
  sender : Option String
  types : Option (List OpType)
  limit : Option Nat
  after : Option String

structure PageInfo where
  has_next_page : Bool
  last_cursor : Option String

structure OperationsResponse where
  page_info : PageInfo
  items : List Operation

def parseDigitsAux : List Char → Nat → Option Nat
  | [], acc => some acc
  | c :: rest, acc =>
    if '0' ≤ c && c ≤ '9' then parseDigitsAux rest (acc * 10 + (c.toNat - '0'.toNat))
    else none

/-- `str::parse::<i64>`: optional sign, at least one decimal digit, i64 range. -/
def parseI64 (s : String) : Option Int :=
  match s.data with
  | [] => none
  | '+' :: rest =>
    match rest with
    | [] => none
    | _ => (parseDigitsAux rest 0).bind
        (fun n => if n ≤ 2 ^ 63 - 1 then some (n : Int) else none)
  | '-' :: rest =>
    match rest with
    | [] => none
    | _ => (parseDigitsAux rest 0).bind
        (fun n => if n ≤ 2 ^ 63 then some (-(n : Int)) else none)
  | ds => (parseDigitsAux ds 0).bind
      (fun n => if n ≤ 2 ^ 63 - 1 then some (n : Int) else none)

/-- `get_operations_handler`, parameterized by the stored rows the repo would
query; the errors are the handler's warp rejections. -/
def get_operations_handler (rows : List TxRow) (query : OperationsQuery) :
    Except GetOperationsError OperationsResponse :=
  if (match query.limit with
      | some limit => decide (limit > MAX_QUERY_LIMIT)
      | none => false) then
    .error .InvalidLimit
  else
    let types := query.types.map (fun list =>
      list.map (fun t => match t with | OpType.InvokeScript => OperationType.InvokeScript))
    match (match query.after with
           | some v =>
             match parseI64 v with
             | none => Except.error GetOperationsError.InvalidAfter
             | some n => Except.ok (some n)
           | none => Except.ok none) with
    | .error e => .error e
    | .ok start =>
      let page : Page := { start, limit := query.limit.getD MAX_QUERY_LIMIT }
      let fr := fetch_operations rows types query.sender page
      .ok { page_info := { has_next_page := fr.2.isSome,
                           last_cursor := fr.2.map (fun v => toString v) },
            items := fr.1 }

/-- Claim C9: the query equals the spec's conjunctive selection (filters for
op_type membership when provided and non-empty, sender equality, `uid ≥
start`; uid-ascending order; `limit + 1` rows requested; the extra row popped
and its uid exposed as the next cursor); the returned items are in ascending
uid order; and a request with `limit > 100` is rejected as `InvalidLimit`
(HTTP 400) identically for every store content, i.e. without querying it. -/
theorem fetch_operations_spec :
    (∀ (rows : List TxRow) (op_types : Option (List OperationType))
       (sender : Option String) (page : Page),
      fetch_operations rows op_types sender page =
        fetchOperationsSpec rows op_types sender page) ∧
    (∀ (rows : List TxRow) (op_types : Option (List OperationType))
       (sender : Option String) (page : Page),
      List.Sorted (· ≤ ·)
        ((fetch_operations rows op_types sender page).1.map (fun o => o.tx_uid))) ∧
    (∀ (rows : List TxRow) (query : OperationsQuery) (limit : Nat),
      query.limit = some limit → limit > MAX_QUERY_LIMIT →
        get_operations_handler rows query = .error .InvalidLimit ∧
        GetOperationsError.status_code .InvalidLimit = 400) := by
  refine ⟨?_, ?_, ?_⟩
  · intro rows op_types sender page
    cases op_types with
    | none =>
      cases sender <;> cases hst : page.start <;>
        simp [fetch_operations, fetchOperationsSpec, hst, List.filter_filter,
          Bool.and_comm, Bool.and_left_comm, Bool.and_assoc]
    | some ots =>
      by_cases hots : ots.isEmpty <;>
        cases sender <;> cases hst : page.start <;>
          simp [fetch_operations, fetchOperationsSpec, hots, hst, List.filter_filter,
            Bool.and_comm, Bool.and_left_comm, Bool.and_assoc]
  · intro rows op_types sender page
    have hq : ∀ (q : List TxRow) (n : Nat),
        List.Sorted (· ≤ ·)
          ((((sortByUid q).take n).map
            (fun r => { tx_uid := r.uid, body := r.operation : Operation })).map
            (fun o => o.tx_uid)) := by
      intro q n
      rw [List.map_map]
      refine List.pairwise_map.mpr ?_
      refine List.Pairwise.take ?_
      haveI : IsTotal TxRow (fun a b : TxRow => a.uid ≤ b.uid) :=
        ⟨fun a b => Int.le_total a.uid b.uid⟩
      haveI : IsTrans TxRow (fun a b : TxRow => a.uid ≤ b.uid) :=
        ⟨fun a b c hab hbc => Int.le_trans hab hbc⟩
      exact List.sorted_insertionSort (fun a b : TxRow => a.uid ≤ b.uid) q
    unfold fetch_operations
    dsimp only
    split
    · rw [List.map_dropLast]
      exact List.Pairwise.sublist (List.dropLast_sublist _) (hq _ _)
    · exact hq _ _
  · intro rows query limit hql hgt
    refine ⟨?_, rfl⟩
    unfold get_operations_handler
    rw [hql]
    dsimp only
    rw [if_pos (decide_eq_true hgt)]

/-- Witness for claim C9: the limit guard at `limit = 101` over an empty
stored table. -/
theorem fetch_operations_spec_witness :
    get_operations_handler []
        { sender := none, types := none, limit := some 101, after := none } =
      .error .InvalidLimit ∧
    GetOperationsError.status_code .InvalidLimit = 400 :=
  fetch_operations_spec.2.2 []
    { sender := none, types := none, limit := some 101, after := none } 101 rfl (by decide)

end Ops
